import Mathlib

/-!
Verification of the cpd registration runner (`include/cpd/runner.hpp`) and the
nonrigid transform strategy (`nonrigid.cpp`) against their specification.

The embedding mirrors the C++ template structure: `Runner::run` is generic over
the transform strategy and the probability engine, so the Lean `Runner.run` is
parameterized by a `Transform` record (the capability set `init`,
`modify_probabilities`, `compute`, `denormalize`) and by `Comparer` functions.
Doubles are idealized as rationals, except that the one division that the code
performs without a zero guard (the relative log-likelihood change) is modelled
by `RVal`, which records the IEEE outcomes NaN and Inf of dividing by an exact
zero, together with their comparison semantics.
-/

set_option autoImplicit false

namespace Cpd

/-- Machine epsilon of an IEEE double, `std::numeric_limits of double epsilon`. -/
def machineEps : ℚ := 1 / 2 ^ 52

/-- Value of a double that is either finite (idealized as a rational), positive
infinity, or NaN.  Used for the convergence metric `ntol`, the only quantity in
the runner that can become non-finite through division by an exact zero. -/
inductive RVal where
  | fin (q : ℚ)
  | inf
  | nan
deriving DecidableEq

/-- Model of `std::abs(num / den)` on doubles: dividing by an exact zero yields
NaN when the numerator is also zero and (after `abs`) positive infinity
otherwise; every other case is the finite absolute quotient. -/
def RVal.absDiv (num den : ℚ) : RVal :=
  if den = 0 then (if num = 0 then RVal.nan else RVal.inf) else RVal.fin |num / den|

/-- Model of the double comparison `v > t`: any comparison with NaN is false,
and positive infinity exceeds every finite threshold. -/
def RVal.gtq : RVal → ℚ → Bool
  | RVal.fin q, t => decide (t < q)
  | RVal.inf, _ => true
  | RVal.nan, _ => false

/-- The default number of iterations allowed (`DEFAULT_MAX_ITERATIONS`). -/
def DEFAULT_MAX_ITERATIONS : ℕ := 150

/-- Whether points should be normalized by default (`DEFAULT_NORMALIZE`). -/
def DEFAULT_NORMALIZE : Bool := true

/-- The default outlier weight (`DEFAULT_OUTLIERS`). -/
def DEFAULT_OUTLIERS : ℚ := 0.1

/-- The default tolerance (`DEFAULT_TOLERANCE`). -/
def DEFAULT_TOLERANCE : ℚ := 1e-5

/-- The default sigma2 (`DEFAULT_SIGMA2`, written `0.0` in the source). -/
def DEFAULT_SIGMA2 : ℚ := 0

/-- Whether the correspondence vector should be computed by default
(`DEFAULT_CORRESPONDENCE`). -/
def DEFAULT_CORRESPONDENCE : Bool := false

/-- Configuration state of a `cpd::Runner`: the `m_` members that the fluent
setters mutate.  The comparer and transform of the C++ class are passed to
`Runner.run` as explicit arguments, mirroring the template parameter and the
injected `std::unique_ptr` comparer. -/
structure Runner where
  maxIterations : ℕ
  normalize : Bool
  outliers : ℚ
  sigma2 : ℚ
  tolerance : ℚ
  correspondence : Bool
deriving DecidableEq

/-- A default-constructed `Runner`. -/
def Runner.default : Runner :=
  { maxIterations := DEFAULT_MAX_ITERATIONS
    normalize := DEFAULT_NORMALIZE
    outliers := DEFAULT_OUTLIERS
    sigma2 := DEFAULT_SIGMA2
    tolerance := DEFAULT_TOLERANCE
    correspondence := DEFAULT_CORRESPONDENCE }

/-- Setter `Runner::max_iterations`: stores the value unchanged. -/
def Runner.withMaxIterations (c : Runner) (n : ℕ) : Runner := { c with maxIterations := n }

/-- Setter `Runner::normalize`: stores the value unchanged. -/
def Runner.withNormalize (c : Runner) (b : Bool) : Runner := { c with normalize := b }

/-- Setter `Runner::outliers`: stores the value unchanged. -/
def Runner.withOutliers (c : Runner) (q : ℚ) : Runner := { c with outliers := q }

/-- Setter `Runner::sigma2`: stores the value unchanged. -/
def Runner.withSigma2 (c : Runner) (q : ℚ) : Runner := { c with sigma2 := q }

/-- Setter `Runner::tolerance`: stores the value unchanged. -/
def Runner.withTolerance (c : Runner) (q : ℚ) : Runner := { c with tolerance := q }

/-- Setter `Runner::correspondence`: stores the value unchanged. -/
def Runner.withCorrespondence (c : Runner) (b : Bool) : Runner := { c with correspondence := b }

/-- Output of one E-step (`cpd::Probabilities`): a transform-specific payload
(for the nonrigid strategy: `p1`, `pt1`, `px`), the log-likelihood proxy `l`,
and the hard-correspondence vector. -/
structure GProb (Pp : Type) where
  payload : Pp
  l : ℚ
  corr : List ℕ

/-- A probability engine, `Comparer::compute(fixed, moving, sigma2, outliers)`. -/
def Comparer (PtF PtM Pp : Type) : Type := PtF → PtM → ℚ → ℚ → GProb Pp

/-- Output of `cpd::normalize`: variant-specific data (mean and scale) plus the
normalized copies of both clouds, as the fields `fixed` and `moving` that
`Runner::run` redirects its pointers to. -/
structure GNorm (Nm PtF PtM : Type) where
  data : Nm
  fixed : PtF
  moving : PtM

/-- A transform strategy: the capability set `init`, `modify_probabilities`,
`compute`, `denormalize` of the C++ transform classes.  `S` is the mutable
transform state (for the nonrigid strategy: the kernel `m_g` and the weights
`m_w`); `compute` returns the updated state together with the new points and
the new sigma2. -/
structure Transform (S PtF PtM Pp Nm : Type) where
  init : PtF → PtM → S
  modify : S → GProb Pp → GProb Pp
  compute : S → PtF → PtM → GProb Pp → ℚ → S × PtM × ℚ
  denormalize : GNorm Nm PtF PtM → PtM → PtM

/-- State of the EM loop in `Runner::run`: the transform state, the current
`result.points` and `result.sigma2`, the stored likelihood `l`, the convergence
metric `ntol`, and the iteration counter `iter`. -/
structure LoopState (S PtM : Type) where
  tstate : S
  points : PtM
  sigma2 : ℚ
  l : ℚ
  ntol : RVal
  iter : ℕ

variable {S PtF PtM Pp Nm : Type}

/-- The part of the loop condition of `Runner::run` that is not the iteration
cap: `ntol > m_tolerance AND result.sigma2 > 10 * epsilon`.  The cap
`iter < m_max_iterations` is realized by the fuel of `runLoop`. -/
def loopCond (cfg : Runner) (st : LoopState S PtM) : Bool :=
  RVal.gtq st.ntol cfg.tolerance && decide (10 * machineEps < st.sigma2)

/-- One execution of the loop body of `Runner::run`: E-step via the comparer,
`modify_probabilities`, convergence metric from the modified likelihood, store
the likelihood, M-step via `Transform.compute` on the original
(post-normalization) moving cloud, increment the iteration counter. -/
def loopStep (T : Transform S PtF PtM Pp Nm) (C : Comparer PtF PtM Pp) (cfg : Runner)
    (fixedN : PtF) (movingN : PtM) (st : LoopState S PtM) : LoopState S PtM :=
  let pr := T.modify st.tstate (C fixedN st.points st.sigma2 cfg.outliers)
  let ntol := RVal.absDiv (pr.l - st.l) pr.l
  let r := T.compute st.tstate fixedN movingN pr st.sigma2
  ⟨r.1, r.2.1, r.2.2, pr.l, ntol, st.iter + 1⟩

/-- The EM loop of `Runner::run`.  The fuel argument realizes the guard
`iter < m_max_iterations`: the loop is entered with fuel `m_max_iterations`
and an iteration counter of zero, so the fuel is exactly the number of
remaining permitted iterations, and the recursion is structurally
terminating. -/
def runLoop (T : Transform S PtF PtM Pp Nm) (C : Comparer PtF PtM Pp) (cfg : Runner)
    (fixedN : PtF) (movingN : PtM) : ℕ → LoopState S PtM → LoopState S PtM
  | 0, st => st
  | fuel + 1, st =>
    if loopCond cfg st then
      runLoop T C cfg fixedN movingN fuel (loopStep T C cfg fixedN movingN st)
    else st

/-- The number of loop-body executions that `runLoop` performs from a given
state with a given amount of fuel. -/
def countSteps (T : Transform S PtF PtM Pp Nm) (C : Comparer PtF PtM Pp) (cfg : Runner)
    (fixedN : PtF) (movingN : PtM) : ℕ → LoopState S PtM → ℕ
  | 0, _ => 0
  | fuel + 1, st =>
    if loopCond cfg st then
      countSteps T C cfg fixedN movingN fuel (loopStep T C cfg fixedN movingN st) + 1
    else 0

/-- The state with which `Runner::run` enters the loop: transform initialized
from the (possibly normalized) clouds, `result.points` set to the moving cloud,
`result.sigma2` set to the configured value if non-zero and otherwise to
`default_sigma2`, `l` to zero, `ntol` to `m_tolerance + 10.0`, `iter` to
zero. -/
def initState (T : Transform S PtF PtM Pp Nm) (defSig : PtF → PtM → ℚ) (cfg : Runner)
    (fixedN : PtF) (movingN : PtM) : LoopState S PtM :=
  { tstate := T.init fixedN movingN
    points := movingN
    sigma2 := if cfg.sigma2 = 0 then defSig fixedN movingN else cfg.sigma2
    l := 0
    ntol := RVal.fin (cfg.tolerance + 10)
    iter := 0 }

/-- The clouds the loop works on: the normalized copies when `m_normalize` is
set (the pointer redirection in `Runner::run`), the original clouds
otherwise. -/
def normPair (normFn : PtF → PtM → GNorm Nm PtF PtM) (cfg : Runner)
    (fixed : PtF) (moving : PtM) : PtF × PtM :=
  if cfg.normalize then ((normFn fixed moving).fixed, (normFn fixed moving).moving)
  else (fixed, moving)

/-- The loop state of `Runner::run` after the EM loop has finished. -/
def runFinal (T : Transform S PtF PtM Pp Nm) (C : Comparer PtF PtM Pp)
    (defSig : PtF → PtM → ℚ) (normFn : PtF → PtM → GNorm Nm PtF PtM) (cfg : Runner)
    (fixed : PtF) (moving : PtM) : LoopState S PtM :=
  let p := normPair normFn cfg fixed moving
  runLoop T C cfg p.1 p.2 cfg.maxIterations (initState T defSig cfg p.1 p.2)

/-- The result assembled by `Runner::run`: aligned points, final sigma2,
iteration count, and the optional correspondence vector.  The wall-clock
`runtime` member is not modelled. -/
structure RunResult (PtM : Type) where
  points : PtM
  sigma2 : ℚ
  iterations : ℕ
  correspondence : Option (List ℕ)

/-- `Runner::run`.  `T` is the transform strategy (the template parameter),
`C` the configured comparer (`m_comparer`), `directC` the exact comparer that
the correspondence block constructs on the spot (`DirectComparer()`), `defSig`
the data-driven initial variance (`default_sigma2`), and `normFn` the
normalizer (`cpd::normalize`); the latter three live outside the given sources
and are therefore abstract parameters here.  After the loop the points are
denormalized when `m_normalize` is set, and when `m_correspondence` is set one
additional probability pass runs on the un-normalized fixed cloud and the final
points, at the configured `m_sigma2` and `m_outliers`. -/
def Runner.run (cfg : Runner) (T : Transform S PtF PtM Pp Nm) (C : Comparer PtF PtM Pp)
    (directC : Comparer PtF PtM Pp) (defSig : PtF → PtM → ℚ)
    (normFn : PtF → PtM → GNorm Nm PtF PtM) (fixed : PtF) (moving : PtM) : RunResult PtM :=
  let stF := runFinal T C defSig normFn cfg fixed moving
  let pts := if cfg.normalize then T.denormalize (normFn fixed moving) stF.points else stF.points
  let corr :=
    if cfg.correspondence then some ((directC fixed pts cfg.sigma2 cfg.outliers).corr) else none
  { points := pts, sigma2 := stF.sigma2, iterations := stF.iter, correspondence := corr }

/-- A transform strategy over trivial cloud types, used to instantiate the
generic runner on concrete inputs: `init` and `denormalize` do nothing,
`modify` is the identity (as for the rigid and affine strategies), and
`compute` keeps the incoming sigma2. -/
def trivialTransform : Transform Unit Unit Unit Unit Unit :=
  { init := fun _ _ => ()
    modify := fun _ p => p
    compute := fun _ _ _ _ s2 => ((), (), s2)
    denormalize := fun _ p => p }

/-- A comparer over trivial cloud types whose likelihood proxy is the constant
`q` and whose correspondence vector is empty. -/
def constComparer (q : ℚ) : Comparer Unit Unit Unit :=
  fun _ _ _ _ => ⟨(), q, []⟩

/-- A normalizer over trivial cloud types. -/
def trivialNorm : Unit → Unit → GNorm Unit Unit Unit :=
  fun _ _ => ⟨(), (), ()⟩

/-- A data-driven initial variance over trivial cloud types, constantly one. -/
def trivialSig : Unit → Unit → ℚ :=
  fun _ _ => 1

/-- Payload of `cpd::Probabilities` consumed by the nonrigid M-step: the
per-moving-point marginals `p1`, the per-fixed-point marginals `pt1`, and the
weighted moments `px`. -/
structure NRProb (N M D : ℕ) where
  p1 : Fin M → ℚ
  pt1 : Fin N → ℚ
  px : Matrix (Fin M) (Fin D) ℚ

/-- State of the nonrigid transform: the moving-to-moving affinity kernel
`m_g` and the displacement weights `m_w`. -/
structure NRState (M D : ℕ) where
  g : Matrix (Fin M) (Fin M) ℚ
  w : Matrix (Fin M) (Fin D) ℚ

/-- Exact-arithmetic model of `colPivHouseholderQr().solve` on the square
system of the nonrigid M-step: the determinant-adjugate form of the inverse,
which for an invertible coefficient matrix returns the unique solution of
`A * X = B` (`qrSolve_solves`).  On a singular matrix the code's householder
solve returns an unspecified least-squares vector; here the value is the zero
matrix, and no claim depends on that case. -/
def qrSolve {M D : ℕ} (A : Matrix (Fin M) (Fin M) ℚ) (B : Matrix (Fin M) (Fin D) ℚ) :
    Matrix (Fin M) (Fin D) ℚ :=
  (A.det)⁻¹ • (A.adjugate * B)

/-- `Nonrigid::init`: builds `m_g` as the affinity kernel of the moving cloud
with itself at width `m_beta` and zeroes `m_w`.  The `affinity` function lives
in `affinity.hpp`, outside the given sources, so the kernel builder `aff` is an
abstract parameter. -/
def nrInit {N M D : ℕ} (beta : ℚ)
    (aff : Matrix (Fin M) (Fin D) ℚ → Matrix (Fin M) (Fin D) ℚ → ℚ → Matrix (Fin M) (Fin M) ℚ)
    (_fixed : Matrix (Fin N) (Fin D) ℚ) (moving : Matrix (Fin M) (Fin D) ℚ) : NRState M D :=
  { g := aff moving moving beta, w := 0 }

/-- `Nonrigid::modify_probabilities`: adds the smoothness penalty
`m_lambda / 2 * trace(transpose(m_w) * m_g * m_w)` to the log-likelihood proxy
`l` of the probabilities; the transform state is unchanged (const method). -/
def nrModify {N M D : ℕ} (lam : ℚ) (s : NRState M D) (pr : GProb (NRProb N M D)) :
    GProb (NRProb N M D) :=
  { pr with l := pr.l + lam / 2 * (s.w.transpose * s.g * s.w).trace }

/-- `Nonrigid::compute`: solve
`(diag(p1) * m_g + m_lambda * sigma2 * I) * W = px - diag(p1) * moving`
for the new `m_w`, set the new points to `moving + m_g * m_w`, and recompute
sigma2 as the absolute value of the probability-weighted residual expression
divided by `np * cols`. -/
def nrCompute {N M D : ℕ} (lam : ℚ) (s : NRState M D) (fixed : Matrix (Fin N) (Fin D) ℚ)
    (moving : Matrix (Fin M) (Fin D) ℚ) (pr : GProb (NRProb N M D)) (sigma2 : ℚ) :
    NRState M D × Matrix (Fin M) (Fin D) ℚ × ℚ :=
  let dp := Matrix.diagonal pr.payload.p1
  let w := qrSolve (dp * s.g + (lam * sigma2) • (1 : Matrix (Fin M) (Fin M) ℚ))
    (pr.payload.px - dp * moving)
  let points := moving + s.g * w
  let np := ∑ j, pr.payload.p1 j
  let s2 := |((∑ i, ∑ d, fixed i d ^ 2 * pr.payload.pt1 i) +
      (∑ j, ∑ d, points j d ^ 2 * pr.payload.p1 j) -
      2 * (pr.payload.px.transpose * points).trace) / (np * (D : ℚ))|
  ({ s with w := w }, points, s2)

/-- Normalization data consumed by `Nonrigid::denormalize`: the common scale
and the fixed-cloud mean. -/
structure NRNorm (D : ℕ) where
  scale : ℚ
  fixedMean : Fin D → ℚ

/-- `Nonrigid::denormalize`: multiplies the result points by the stored scale
and adds the fixed-cloud mean to every row. -/
def nrDenormalize {N M D : ℕ}
    (nm : GNorm (NRNorm D) (Matrix (Fin N) (Fin D) ℚ) (Matrix (Fin M) (Fin D) ℚ))
    (pts : Matrix (Fin M) (Fin D) ℚ) : Matrix (Fin M) (Fin D) ℚ :=
  fun j d => pts j d * nm.data.scale + nm.data.fixedMean d

/-- The nonrigid transform strategy, assembled from its four capabilities with
regularization weight `lam` (`m_lambda`), kernel width `beta` (`m_beta`), and
kernel builder `aff`. -/
def nonrigidTransform {N M D : ℕ} (beta lam : ℚ)
    (aff : Matrix (Fin M) (Fin D) ℚ → Matrix (Fin M) (Fin D) ℚ → ℚ → Matrix (Fin M) (Fin M) ℚ) :
    Transform (NRState M D) (Matrix (Fin N) (Fin D) ℚ) (Matrix (Fin M) (Fin D) ℚ)
      (NRProb N M D) (NRNorm D) :=
  { init := nrInit beta aff
    modify := nrModify lam
    compute := nrCompute lam
    denormalize := nrDenormalize }

/-- Modelled from the spec: `default_sigma2` lives in `cpd/utils.hpp`, which is
not among the given sources.  The spec defines it as the mean squared pairwise
distance between all fixed and moving points, scaled by `1/(D*N*M)`. -/
def defaultSigma2 {N M D : ℕ} (fixed : Matrix (Fin N) (Fin D) ℚ)
    (moving : Matrix (Fin M) (Fin D) ℚ) : ℚ :=
  (∑ i, ∑ j, ∑ d, (fixed i d - moving j d) ^ 2) / ((D : ℚ) * (N : ℚ) * (M : ℚ))

section LoopLemmas

variable (T : Transform S PtF PtM Pp Nm) (C : Comparer PtF PtM Pp) (cfg : Runner)
variable (fixedN : PtF) (movingN : PtM)

/-- The loop counter grows by at most the available fuel. -/
theorem runLoop_iter_le :
    ∀ (fuel : ℕ) (st : LoopState S PtM),
      (runLoop T C cfg fixedN movingN fuel st).iter ≤ st.iter + fuel := by
  intro fuel
  induction fuel with
  | zero => intro st; simp [runLoop]
  | succ n ih =>
    intro st
    rw [runLoop]
    by_cases hc : loopCond cfg st = true
    · rw [if_pos hc]
      have h := ih (loopStep T C cfg fixedN movingN st)
      have hstep : (loopStep T C cfg fixedN movingN st).iter = st.iter + 1 := rfl
      omega
    · rw [if_neg hc]
      omega

/-- If the loop stopped before exhausting its fuel, then it stopped because
the loop condition failed at the final state. -/
theorem runLoop_cond_at_end :
    ∀ (fuel : ℕ) (st : LoopState S PtM),
      (runLoop T C cfg fixedN movingN fuel st).iter < st.iter + fuel →
        loopCond cfg (runLoop T C cfg fixedN movingN fuel st) = false := by
  intro fuel
  induction fuel with
  | zero => intro st h; simp [runLoop] at h
  | succ n ih =>
    intro st h
    rw [runLoop] at h ⊢
    by_cases hc : loopCond cfg st = true
    · rw [if_pos hc] at h ⊢
      have hstep : (loopStep T C cfg fixedN movingN st).iter = st.iter + 1 := rfl
      exact ih (loopStep T C cfg fixedN movingN st) (by omega)
    · rw [if_neg hc] at h ⊢
      simp only [Bool.not_eq_true] at hc
      exact hc

/-- The loop counter advances by exactly the number of loop-body executions. -/
theorem runLoop_iter_count :
    ∀ (fuel : ℕ) (st : LoopState S PtM),
      (runLoop T C cfg fixedN movingN fuel st).iter =
        st.iter + countSteps T C cfg fixedN movingN fuel st := by
  intro fuel
  induction fuel with
  | zero => intro st; simp [runLoop, countSteps]
  | succ n ih =>
    intro st
    rw [runLoop, countSteps]
    by_cases hc : loopCond cfg st = true
    · rw [if_pos hc, if_pos hc]
      have h := ih (loopStep T C cfg fixedN movingN st)
      have hstep : (loopStep T C cfg fixedN movingN st).iter = st.iter + 1 := rfl
      omega
    · rw [if_neg hc, if_neg hc]
      omega

end LoopLemmas

/-- A concrete configuration for witnesses: the defaults with a cap of three
iterations, so that a run with a constant likelihood converges strictly before
the cap. -/
def witnessCfg : Runner := Runner.default.withMaxIterations 3

/-- C1: the EM loop body executes only while `iter < max_iterations` (by the
fuel discipline of `runLoop`) and, at every entry, `ntol > tolerance` with
`sigma2 > 10 * machine epsilon`; the loop is a structurally terminating
recursion, the returned iteration count equals the exact number of loop-body
executions (`countSteps`), is at most `max_iterations` even when the tolerance
was never met, and if the cap was not reached then the tolerance or the sigma2
condition failed at the final state. -/
theorem runner_iterations_exact (cfg : Runner) (T : Transform S PtF PtM Pp Nm)
    (C directC : Comparer PtF PtM Pp) (defSig : PtF → PtM → ℚ)
    (normFn : PtF → PtM → GNorm Nm PtF PtM) (fixed : PtF) (moving : PtM) :
    (Runner.run cfg T C directC defSig normFn fixed moving).iterations =
      countSteps T C cfg (normPair normFn cfg fixed moving).1 (normPair normFn cfg fixed moving).2
        cfg.maxIterations
        (initState T defSig cfg (normPair normFn cfg fixed moving).1
          (normPair normFn cfg fixed moving).2) ∧
    (Runner.run cfg T C directC defSig normFn fixed moving).iterations ≤ cfg.maxIterations ∧
    ((Runner.run cfg T C directC defSig normFn fixed moving).iterations < cfg.maxIterations →
      loopCond cfg (runFinal T C defSig normFn cfg fixed moving) = false) := by
  have hrun : (Runner.run cfg T C directC defSig normFn fixed moving).iterations =
      (runFinal T C defSig normFn cfg fixed moving).iter := rfl
  have hinit : (initState T defSig cfg (normPair normFn cfg fixed moving).1
      (normPair normFn cfg fixed moving).2).iter = 0 := rfl
  have hcount := runLoop_iter_count T C cfg (normPair normFn cfg fixed moving).1
    (normPair normFn cfg fixed moving).2 cfg.maxIterations
    (initState T defSig cfg (normPair normFn cfg fixed moving).1
      (normPair normFn cfg fixed moving).2)
  have hle := runLoop_iter_le T C cfg (normPair normFn cfg fixed moving).1
    (normPair normFn cfg fixed moving).2 cfg.maxIterations
    (initState T defSig cfg (normPair normFn cfg fixed moving).1
      (normPair normFn cfg fixed moving).2)
  have hend := runLoop_cond_at_end T C cfg (normPair normFn cfg fixed moving).1
    (normPair normFn cfg fixed moving).2 cfg.maxIterations
    (initState T defSig cfg (normPair normFn cfg fixed moving).1
      (normPair normFn cfg fixed moving).2)
  have hfin : runFinal T C defSig normFn cfg fixed moving =
      runLoop T C cfg (normPair normFn cfg fixed moving).1 (normPair normFn cfg fixed moving).2
        cfg.maxIterations
        (initState T defSig cfg (normPair normFn cfg fixed moving).1
          (normPair normFn cfg fixed moving).2) := rfl
  refine ⟨?_, ?_, ?_⟩
  · rw [hrun, hfin, hcount, hinit]; omega
  · rw [hrun, hfin]; omega
  · intro h
    rw [hrun, hfin] at h
    rw [hfin]
    exact hend (by omega)

/-- Witness for `runner_iterations_exact`: on a concrete run that converges
after two iterations, strictly below a cap of three, the loop condition is
false at the final state. -/
theorem runner_iterations_exact_witness :
    loopCond witnessCfg
      (runFinal trivialTransform (constComparer 5) trivialSig trivialNorm
        witnessCfg () ()) = false :=
  (runner_iterations_exact witnessCfg trivialTransform (constComparer 5) (constComparer 5)
    trivialSig trivialNorm () ()).2.2 (by
      norm_num [Runner.run, runFinal, runLoop, loopStep, loopCond, initState, normPair,
        RVal.absDiv, RVal.gtq, machineEps, Runner.default, Runner.withMaxIterations, witnessCfg,
        trivialTransform, constComparer, trivialNorm, trivialSig, DEFAULT_MAX_ITERATIONS,
        DEFAULT_NORMALIZE, DEFAULT_OUTLIERS, DEFAULT_SIGMA2, DEFAULT_TOLERANCE,
        DEFAULT_CORRESPONDENCE])

/-- C3 counterexample: a run in which an E-step yields a likelihood proxy of
exactly zero, so the convergence metric of that iteration is NaN — the claimed
guard against division by a near-zero likelihood does not exist in the code. -/
theorem ntol_nan_counterexample :
    (runFinal trivialTransform (constComparer 0) trivialSig trivialNorm
      (Runner.default.withMaxIterations 1) () ()).ntol = RVal.nan := by
  norm_num [runFinal, runLoop, loopStep, loopCond, initState, normPair, RVal.absDiv, RVal.gtq,
    machineEps, Runner.default, Runner.withMaxIterations, trivialTransform, constComparer,
    trivialNorm, trivialSig, DEFAULT_NORMALIZE, DEFAULT_OUTLIERS, DEFAULT_SIGMA2,
    DEFAULT_TOLERANCE, DEFAULT_CORRESPONDENCE]

/-- C3 amended: in every iteration the convergence metric is computed as the
unguarded `abs((L - L_prev) / L)` on the modified likelihood; when `L` is
exactly zero that division produces NaN (for `L_prev = 0`) or Inf, so the
metric can become non-finite. -/
theorem ntol_unguarded (T : Transform S PtF PtM Pp Nm) (C : Comparer PtF PtM Pp)
    (cfg : Runner) (fixedN : PtF) (movingN : PtM) (st : LoopState S PtM) :
    (loopStep T C cfg fixedN movingN st).ntol =
      RVal.absDiv ((T.modify st.tstate (C fixedN st.points st.sigma2 cfg.outliers)).l - st.l)
        (T.modify st.tstate (C fixedN st.points st.sigma2 cfg.outliers)).l ∧
    RVal.absDiv 0 0 = RVal.nan ∧ RVal.absDiv 1 0 = RVal.inf :=
  ⟨rfl, by norm_num [RVal.absDiv], by norm_num [RVal.absDiv]⟩

/-- C4 counterexample: a negative tolerance and an outlier weight of 2
(outside `[0,1)`) are stored unchanged by the setters, and `run` executes
normally with them — iterating until the cap — rather than surfacing any
error to the caller. -/
theorem config_no_validation_counterexample :
    (Runner.default.withTolerance (-1)).tolerance = -1 ∧
    (Runner.default.withOutliers 2).outliers = 2 ∧
    (Runner.run (((Runner.default.withTolerance (-1)).withOutliers 2).withMaxIterations 3)
      trivialTransform (constComparer 5) (constComparer 5) trivialSig trivialNorm
      () ()).iterations = 3 := by
  refine ⟨rfl, rfl, ?_⟩
  norm_num [Runner.run, runFinal, runLoop, loopStep, loopCond, initState, normPair,
    RVal.absDiv, RVal.gtq, machineEps, Runner.default, Runner.withMaxIterations,
    Runner.withTolerance, Runner.withOutliers, trivialTransform, constComparer, trivialNorm,
    trivialSig, DEFAULT_NORMALIZE, DEFAULT_OUTLIERS, DEFAULT_SIGMA2, DEFAULT_TOLERANCE,
    DEFAULT_CORRESPONDENCE]

/-- C4 amended: configuration values are not validated anywhere — every setter
stores its argument unchanged, whatever its range, and `run` performs no
configuration check at entry: it runs to normal completion (within the
iteration cap) for every configuration, surfacing no error. -/
theorem config_setters_store_unvalidated (q : ℚ) (n : ℕ) (b : Bool) :
    (Runner.default.withTolerance q).tolerance = q ∧
    (Runner.default.withOutliers q).outliers = q ∧
    (Runner.default.withSigma2 q).sigma2 = q ∧
    (Runner.default.withMaxIterations n).maxIterations = n ∧
    (Runner.default.withNormalize b).normalize = b ∧
    (Runner.default.withCorrespondence b).correspondence = b ∧
    ∀ (cfg : Runner) (T : Transform S PtF PtM Pp Nm) (C directC : Comparer PtF PtM Pp)
      (defSig : PtF → PtM → ℚ) (normFn : PtF → PtM → GNorm Nm PtF PtM)
      (fixed : PtF) (moving : PtM),
      (Runner.run cfg T C directC defSig normFn fixed moving).iterations ≤
        cfg.maxIterations := by
  refine ⟨rfl, rfl, rfl, rfl, rfl, rfl, ?_⟩
  intro cfg T C directC defSig normFn fixed moving
  have hle := runLoop_iter_le T C cfg (normPair normFn cfg fixed moving).1
    (normPair normFn cfg fixed moving).2 cfg.maxIterations
    (initState T defSig cfg (normPair normFn cfg fixed moving).1
      (normPair normFn cfg fixed moving).2)
  have hinit : (initState T defSig cfg (normPair normFn cfg fixed moving).1
      (normPair normFn cfg fixed moving).2).iter = 0 := rfl
  have hrun : (Runner.run cfg T C directC defSig normFn fixed moving).iterations =
      (runLoop T C cfg (normPair normFn cfg fixed moving).1 (normPair normFn cfg fixed moving).2
        cfg.maxIterations
        (initState T defSig cfg (normPair normFn cfg fixed moving).1
          (normPair normFn cfg fixed moving).2)).iter := rfl
  omega

/-- C5: when the correspondence flag is set, exactly one additional
probability pass runs after the loop and after denormalization — its engine is
the `directC` comparer constructed on the spot (`DirectComparer()`), whatever
comparer `C` drove the main loop — applied to the un-normalized fixed cloud
together with the final (denormalized) points; when the flag is clear the
result carries no correspondence vector. -/
theorem correspondence_pass (cfg : Runner) (T : Transform S PtF PtM Pp Nm)
    (C directC : Comparer PtF PtM Pp) (defSig : PtF → PtM → ℚ)
    (normFn : PtF → PtM → GNorm Nm PtF PtM) (fixed : PtF) (moving : PtM) :
    (Runner.run cfg T C directC defSig normFn fixed moving).correspondence =
      if cfg.correspondence then
        some ((directC fixed (Runner.run cfg T C directC defSig normFn fixed moving).points
          cfg.sigma2 cfg.outliers).corr)
      else none := rfl

/-- C10: the post-loop correspondence pass receives the configured `m_sigma2`
member — which a default-constructed runner leaves at zero, the value that
also selects the automatic initial sigma2 — and not the final sigma2 produced
by the EM loop: under the automatic-sigma2 default the hard-correspondence
extraction evaluates affinities at sigma2 equal to zero. -/
theorem correspondence_uses_configured_sigma2 (cfg : Runner)
    (T : Transform S PtF PtM Pp Nm) (C directC : Comparer PtF PtM Pp)
    (defSig : PtF → PtM → ℚ) (normFn : PtF → PtM → GNorm Nm PtF PtM)
    (fixed : PtF) (moving : PtM) (h0 : cfg.sigma2 = 0) (hc : cfg.correspondence = true) :
    Runner.default.sigma2 = 0 ∧
    (Runner.run cfg T C directC defSig normFn fixed moving).correspondence =
      some ((directC fixed (Runner.run cfg T C directC defSig normFn fixed moving).points
        0 cfg.outliers).corr) := by
  refine ⟨rfl, ?_⟩
  have h : (Runner.run cfg T C directC defSig normFn fixed moving).correspondence =
      if cfg.correspondence then
        some ((directC fixed (Runner.run cfg T C directC defSig normFn fixed moving).points
          cfg.sigma2 cfg.outliers).corr)
      else none := rfl
  rw [h, hc, h0]
  simp

/-- Witness for `correspondence_uses_configured_sigma2`: a concrete run with
the default (zero) configured sigma2 and the correspondence flag set. -/
theorem correspondence_uses_configured_sigma2_witness :
    Runner.default.sigma2 = 0 ∧
    (Runner.run (Runner.default.withCorrespondence true) trivialTransform (constComparer 5)
      (constComparer 7) trivialSig trivialNorm () ()).correspondence =
      some ((constComparer 7 ()
        (Runner.run (Runner.default.withCorrespondence true) trivialTransform (constComparer 5)
          (constComparer 7) trivialSig trivialNorm () ()).points
        0 (Runner.default.withCorrespondence true).outliers).corr) :=
  correspondence_uses_configured_sigma2 (Runner.default.withCorrespondence true)
    trivialTransform (constComparer 5) (constComparer 7) trivialSig trivialNorm () () rfl rfl

/-- C8: a default-constructed Runner has exactly the documented defaults —
a cap of 150 iterations, normalization on, outlier weight 0.1, tolerance 1e-5,
initial sigma2 zero (meaning compute automatically), and correspondence
computation off. -/
theorem default_config_values :
    Runner.default.maxIterations = 150 ∧
    Runner.default.normalize = true ∧
    Runner.default.outliers = 1 / 10 ∧
    Runner.default.tolerance = 1 / 100000 ∧
    Runner.default.sigma2 = 0 ∧
    Runner.default.correspondence = false := by
  refine ⟨rfl, rfl, ?_, ?_, rfl, rfl⟩ <;>
    norm_num [Runner.default, DEFAULT_OUTLIERS, DEFAULT_TOLERANCE]

/-- C9: a run with `max_iterations = 0` returns normally with an iteration
count of zero, no E-step or M-step is executed (the comparer `C` and the
transform computations do not occur in the resulting points), and the points
are the moving cloud passed through the optional normalize/denormalize
round-trip only. -/
theorem run_zero_iterations (cfg : Runner) (T : Transform S PtF PtM Pp Nm)
    (C directC : Comparer PtF PtM Pp) (defSig : PtF → PtM → ℚ)
    (normFn : PtF → PtM → GNorm Nm PtF PtM) (fixed : PtF) (moving : PtM)
    (h : cfg.maxIterations = 0) :
    (Runner.run cfg T C directC defSig normFn fixed moving).iterations = 0 ∧
    (Runner.run cfg T C directC defSig normFn fixed moving).points =
      (if cfg.normalize then
        T.denormalize (normFn fixed moving) ((normFn fixed moving).moving)
      else moving) := by
  have hfin : runFinal T C defSig normFn cfg fixed moving =
      initState T defSig cfg (normPair normFn cfg fixed moving).1
        (normPair normFn cfg fixed moving).2 := by
    rw [runFinal, h]
    rfl
  constructor
  · show (runFinal T C defSig normFn cfg fixed moving).iter = 0
    rw [hfin]
    rfl
  · show (if cfg.normalize then
        T.denormalize (normFn fixed moving) (runFinal T C defSig normFn cfg fixed moving).points
      else (runFinal T C defSig normFn cfg fixed moving).points) = _
    rw [hfin]
    by_cases hn : cfg.normalize = true
    · rw [if_pos hn, if_pos hn]
      show T.denormalize (normFn fixed moving) (normPair normFn cfg fixed moving).2 = _
      rw [normPair, if_pos hn]
    · rw [if_neg hn, if_neg hn]
      show (normPair normFn cfg fixed moving).2 = moving
      rw [normPair, if_neg hn]

/-- Witness for `run_zero_iterations`: a concrete run with a zero iteration
cap. -/
theorem run_zero_iterations_witness :
    (Runner.run (Runner.default.withMaxIterations 0) trivialTransform (constComparer 5)
      (constComparer 5) trivialSig trivialNorm () ()).iterations = 0 ∧
    (Runner.run (Runner.default.withMaxIterations 0) trivialTransform (constComparer 5)
      (constComparer 5) trivialSig trivialNorm () ()).points =
      (if (Runner.default.withMaxIterations 0).normalize then
        trivialTransform.denormalize (trivialNorm () ()) ((trivialNorm () ()).moving)
      else ()) :=
  run_zero_iterations (Runner.default.withMaxIterations 0) trivialTransform (constComparer 5)
    (constComparer 5) trivialSig trivialNorm () () rfl

/-- A constant kernel builder for concrete nonrigid instantiations. -/
def affOne : Matrix (Fin 1) (Fin 1) ℚ → Matrix (Fin 1) (Fin 1) ℚ → ℚ →
    Matrix (Fin 1) (Fin 1) ℚ :=
  fun _ _ _ => 1

/-- The nonrigid transform on one 1-dimensional point with unit kernel width
and unit regularization weight. -/
def nrT1 : Transform (NRState 1 1) (Matrix (Fin 1) (Fin 1) ℚ) (Matrix (Fin 1) (Fin 1) ℚ)
    (NRProb 1 1 1) (NRNorm 1) :=
  nonrigidTransform 1 1 affOne

/-- A concrete comparer over 1-by-1 matrices with unit marginals and moments. -/
def cM1 : Comparer (Matrix (Fin 1) (Fin 1) ℚ) (Matrix (Fin 1) (Fin 1) ℚ) (NRProb 1 1 1) :=
  fun _ _ _ _ => ⟨⟨fun _ => 1, fun _ => 1, fun _ _ => 1⟩, 0, []⟩

/-- An identity normalizer over 1-by-1 matrices. -/
def normFn1 : Matrix (Fin 1) (Fin 1) ℚ → Matrix (Fin 1) (Fin 1) ℚ →
    GNorm (NRNorm 1) (Matrix (Fin 1) (Fin 1) ℚ) (Matrix (Fin 1) (Fin 1) ℚ) :=
  fun f m => ⟨⟨1, fun _ => 0⟩, f, m⟩

/-- A concrete 1-by-1 fixed cloud. -/
def f1c : Matrix (Fin 1) (Fin 1) ℚ := fun _ _ => 2

/-- A concrete 1-by-1 moving cloud. -/
def m1c : Matrix (Fin 1) (Fin 1) ℚ := fun _ _ => 0

/-- A concrete configuration with a zero iteration cap. -/
def cfg0 : Runner := Runner.default.withMaxIterations 0

/-- C6: at the start of a run, sigma2 is initialized to the configured value
when that value is non-zero and otherwise to the data-driven default — the
mean squared pairwise distance between all fixed and moving points scaled by
`1/(D*N*M)`, modelled from the spec since `default_sigma2` is outside the
given sources — which is a non-negative rational; a run whose loop does not
execute returns exactly that initial sigma2. -/
theorem initial_sigma2_policy {N M D : ℕ} {S Pp Nm : Type}
    (T : Transform S (Matrix (Fin N) (Fin D) ℚ) (Matrix (Fin M) (Fin D) ℚ) Pp Nm)
    (C directC : Comparer (Matrix (Fin N) (Fin D) ℚ) (Matrix (Fin M) (Fin D) ℚ) Pp)
    (normFn : Matrix (Fin N) (Fin D) ℚ → Matrix (Fin M) (Fin D) ℚ →
      GNorm Nm (Matrix (Fin N) (Fin D) ℚ) (Matrix (Fin M) (Fin D) ℚ))
    (cfg : Runner) (fN fixed : Matrix (Fin N) (Fin D) ℚ)
    (mN moving : Matrix (Fin M) (Fin D) ℚ) :
    (initState T defaultSigma2 cfg fN mN).sigma2 =
      (if cfg.sigma2 = 0 then defaultSigma2 fN mN else cfg.sigma2) ∧
    0 ≤ defaultSigma2 fN mN ∧
    (cfg.maxIterations = 0 →
      (Runner.run cfg T C directC defaultSigma2 normFn fixed moving).sigma2 =
        (if cfg.sigma2 = 0 then
          defaultSigma2 (normPair normFn cfg fixed moving).1 (normPair normFn cfg fixed moving).2
        else cfg.sigma2)) := by
  refine ⟨rfl, ?_, ?_⟩
  · unfold defaultSigma2
    apply div_nonneg
    · apply Finset.sum_nonneg
      intro i _
      apply Finset.sum_nonneg
      intro j _
      apply Finset.sum_nonneg
      intro d _
      positivity
    · positivity
  · intro h
    show (runFinal T C defaultSigma2 normFn cfg fixed moving).sigma2 = _
    rw [runFinal, h]
    rfl

/-- Witness for `initial_sigma2_policy`: the concrete 1-by-1 nonrigid
instantiation with a zero iteration cap; the configured sigma2 is zero, so the
automatic default is used. -/
theorem initial_sigma2_policy_witness :
    (initState nrT1 defaultSigma2 cfg0 f1c m1c).sigma2 =
      (if cfg0.sigma2 = 0 then defaultSigma2 f1c m1c else cfg0.sigma2) ∧
    0 ≤ defaultSigma2 f1c m1c ∧
    (Runner.run cfg0 nrT1 cM1 cM1 defaultSigma2 normFn1 f1c m1c).sigma2 =
      (if cfg0.sigma2 = 0 then
        defaultSigma2 (normPair normFn1 cfg0 f1c m1c).1 (normPair normFn1 cfg0 f1c m1c).2
      else cfg0.sigma2) :=
  ⟨(initial_sigma2_policy nrT1 cM1 cM1 normFn1 cfg0 f1c f1c m1c m1c).1,
   (initial_sigma2_policy nrT1 cM1 cM1 normFn1 cfg0 f1c f1c m1c m1c).2.1,
   (initial_sigma2_policy nrT1 cM1 cM1 normFn1 cfg0 f1c f1c m1c m1c).2.2 rfl⟩

/-- On an invertible coefficient matrix, the modelled householder solve
returns the unique exact solution of the square linear system. -/
theorem qrSolve_solves {M D : ℕ} (A : Matrix (Fin M) (Fin M) ℚ)
    (B : Matrix (Fin M) (Fin D) ℚ) (hA : A.det ≠ 0) : A * qrSolve A B = B := by
  rw [qrSolve, Matrix.mul_smul, ← Matrix.mul_assoc, Matrix.mul_adjugate, Matrix.smul_mul,
    Matrix.one_mul, smul_smul, inv_mul_cancel₀ hA, one_smul]

/-- The nonrigid kernel `m_g` is never touched by the loop body: it keeps the
value `init` gave it across every iteration. -/
theorem runLoop_nonrigid_g_eq {N M D : ℕ} (beta lam : ℚ)
    (aff : Matrix (Fin M) (Fin D) ℚ → Matrix (Fin M) (Fin D) ℚ → ℚ → Matrix (Fin M) (Fin M) ℚ)
    (C : Comparer (Matrix (Fin N) (Fin D) ℚ) (Matrix (Fin M) (Fin D) ℚ) (NRProb N M D))
    (cfg : Runner) (fN : Matrix (Fin N) (Fin D) ℚ) (mN : Matrix (Fin M) (Fin D) ℚ) :
    ∀ (fuel : ℕ) (st : LoopState (NRState M D) (Matrix (Fin M) (Fin D) ℚ)),
      (runLoop (nonrigidTransform beta lam aff) C cfg fN mN fuel st).tstate.g = st.tstate.g := by
  intro fuel
  induction fuel with
  | zero => intro st; rfl
  | succ n ih =>
    intro st
    rw [runLoop]
    by_cases hc : loopCond cfg st = true
    · rw [if_pos hc, ih]
      rfl
    · rw [if_neg hc]

/-- C2: in every iteration of the nonrigid M-step the new displacement
weights solve the linear system
`(diag(p1) * G + lambda * sigma2 * I) * W = px - diag(p1) * moving` (provided
the coefficient matrix is invertible, the case in which the householder solve
is exact), the new points are `moving + G * W`, where the `moving` argument of
the M-step is the loop-invariant post-normalization moving cloud `movingN`
and not the previous iterate's `st.points`, and the kernel `G` is left
unchanged by the M-step and by the whole loop — it stays as fixed at `init`
time. -/
theorem nonrigid_mstep_linear_system {N M D : ℕ} (beta lam : ℚ)
    (aff : Matrix (Fin M) (Fin D) ℚ → Matrix (Fin M) (Fin D) ℚ → ℚ → Matrix (Fin M) (Fin M) ℚ)
    (C : Comparer (Matrix (Fin N) (Fin D) ℚ) (Matrix (Fin M) (Fin D) ℚ) (NRProb N M D))
    (cfg : Runner) (fixedN : Matrix (Fin N) (Fin D) ℚ) (movingN : Matrix (Fin M) (Fin D) ℚ)
    (st : LoopState (NRState M D) (Matrix (Fin M) (Fin D) ℚ)) (fuel : ℕ)
    (hA : (Matrix.diagonal (C fixedN st.points st.sigma2 cfg.outliers).payload.p1 * st.tstate.g +
        (lam * st.sigma2) • (1 : Matrix (Fin M) (Fin M) ℚ)).det ≠ 0) :
    (Matrix.diagonal (C fixedN st.points st.sigma2 cfg.outliers).payload.p1 * st.tstate.g +
        (lam * st.sigma2) • (1 : Matrix (Fin M) (Fin M) ℚ)) *
      (loopStep (nonrigidTransform beta lam aff) C cfg fixedN movingN st).tstate.w =
      (C fixedN st.points st.sigma2 cfg.outliers).payload.px -
        Matrix.diagonal (C fixedN st.points st.sigma2 cfg.outliers).payload.p1 * movingN ∧
    (loopStep (nonrigidTransform beta lam aff) C cfg fixedN movingN st).points =
      movingN + st.tstate.g *
        (loopStep (nonrigidTransform beta lam aff) C cfg fixedN movingN st).tstate.w ∧
    (loopStep (nonrigidTransform beta lam aff) C cfg fixedN movingN st).tstate.g =
      st.tstate.g ∧
    (runLoop (nonrigidTransform beta lam aff) C cfg fixedN movingN fuel st).tstate.g =
      st.tstate.g := by
  refine ⟨?_, rfl, rfl, runLoop_nonrigid_g_eq beta lam aff C cfg fixedN movingN fuel st⟩
  have hw : (loopStep (nonrigidTransform beta lam aff) C cfg fixedN movingN st).tstate.w =
      qrSolve
        (Matrix.diagonal (C fixedN st.points st.sigma2 cfg.outliers).payload.p1 * st.tstate.g +
          (lam * st.sigma2) • (1 : Matrix (Fin M) (Fin M) ℚ))
        ((C fixedN st.points st.sigma2 cfg.outliers).payload.px -
          Matrix.diagonal (C fixedN st.points st.sigma2 cfg.outliers).payload.p1 * movingN) :=
    rfl
  rw [hw]
  exact qrSolve_solves _ _ hA

/-- C7: `Nonrigid::modify_probabilities` adds the smoothness penalty
`lambda / 2 * trace(transpose(W) * G * W)` of the current displacement weights
to the likelihood proxy, and the loop computes its relative-change convergence
metric from, and stores as `l`, exactly that penalized scalar — the
regularization affects convergence detection. -/
theorem nonrigid_penalty_in_convergence {N M D : ℕ} (beta lam : ℚ)
    (aff : Matrix (Fin M) (Fin D) ℚ → Matrix (Fin M) (Fin D) ℚ → ℚ → Matrix (Fin M) (Fin M) ℚ)
    (C : Comparer (Matrix (Fin N) (Fin D) ℚ) (Matrix (Fin M) (Fin D) ℚ) (NRProb N M D))
    (cfg : Runner) (fixedN : Matrix (Fin N) (Fin D) ℚ) (movingN : Matrix (Fin M) (Fin D) ℚ)
    (st : LoopState (NRState M D) (Matrix (Fin M) (Fin D) ℚ)) :
    (nrModify lam st.tstate (C fixedN st.points st.sigma2 cfg.outliers)).l =
      (C fixedN st.points st.sigma2 cfg.outliers).l +
        lam / 2 * (st.tstate.w.transpose * st.tstate.g * st.tstate.w).trace ∧
    (loopStep (nonrigidTransform beta lam aff) C cfg fixedN movingN st).ntol =
      RVal.absDiv
        ((nrModify lam st.tstate (C fixedN st.points st.sigma2 cfg.outliers)).l - st.l)
        (nrModify lam st.tstate (C fixedN st.points st.sigma2 cfg.outliers)).l ∧
    (loopStep (nonrigidTransform beta lam aff) C cfg fixedN movingN st).l =
      (nrModify lam st.tstate (C fixedN st.points st.sigma2 cfg.outliers)).l :=
  ⟨rfl, rfl, rfl⟩

/-- A concrete loop state for the 1-by-1 nonrigid instantiation: identity
kernel, zero weights, unit sigma2. -/
def stM1 : LoopState (NRState 1 1) (Matrix (Fin 1) (Fin 1) ℚ) :=
  ⟨⟨1, 0⟩, m1c, 1, 0, RVal.fin 1, 0⟩

/-- Witness for `nonrigid_mstep_linear_system`: at the concrete 1-by-1 state
the coefficient matrix has determinant two, and the new points are the moving
cloud displaced by the kernel times the solved weights. -/
theorem nonrigid_mstep_linear_system_witness :
    (loopStep (nonrigidTransform 1 1 affOne) cM1 Runner.default f1c m1c stM1).points =
      m1c + stM1.tstate.g *
        (loopStep (nonrigidTransform 1 1 affOne) cM1 Runner.default f1c m1c stM1).tstate.w :=
  (nonrigid_mstep_linear_system 1 1 affOne cM1 Runner.default f1c m1c stM1 2 (by
    rw [Matrix.det_fin_one, Matrix.add_apply]
    norm_num [cM1, stM1, Matrix.mul_apply, Matrix.diagonal_apply, Matrix.one_apply,
      Matrix.smul_apply, Fin.sum_univ_one])).2.1

end Cpd
